import Mathlib

/-!
Verification of the plannet security core against its specification.

The Go sources embedded here:
- `src/security/ratelimit.go` — sliding-window rate limiter and HTTP wrapper;
- `src/security/token.go` and the `src/unnamed/part_001` variant — encrypted
  token storage (vault);
- `src/unnamed/part_004` — `SanitizeFilePath` path-traversal guard.

Machine integers: Go `time.Time`/`time.Duration` values are modelled as `Int`
nanosecond counts, `int` as `Int`. Go maps are association lists with
overwrite-on-insert semantics. File-system effects (symlink resolution,
working directory) are parameters of the model.
-/

namespace Plannet

/-- Go map lookup `m[k]` on an association list: first binding wins. -/
def mapLookup {α : Type} (k : String) : List (String × α) → Option α
  | [] => none
  | p :: m => if p.1 == k then some p.2 else mapLookup k m

/-- Go map update `m[k] = v`: remove any old binding for `k`, add the new one. -/
def mapInsert {α : Type} (k : String) (v : α) (m : List (String × α)) :
    List (String × α) :=
  (k, v) :: m.filter (fun p => p.1 != k)

theorem mapLookup_insert_self {α : Type} (k : String) (v : α)
    (m : List (String × α)) : mapLookup k (mapInsert k v m) = some v := by
  simp [mapLookup, mapInsert]

theorem mapLookup_filter_ne {α : Type} {k' k : String} (h : k' ≠ k)
    (m : List (String × α)) :
    mapLookup k' (m.filter (fun p => p.1 != k)) = mapLookup k' m := by
  induction m with
  | nil => rfl
  | cons p m ih =>
      rw [List.filter_cons]
      by_cases hp : p.1 = k
      · simp [hp, mapLookup, ih, Ne.symm h]
      · simp [hp, mapLookup, ih]

theorem mapLookup_insert_ne {α : Type} {k' k : String} (h : k' ≠ k) (v : α)
    (m : List (String × α)) :
    mapLookup k' (mapInsert k v m) = mapLookup k' m := by
  have hk : (k == k') = false := by
    simp only [beq_eq_false_iff_ne, ne_eq]
    exact fun he => h he.symm
  simp [mapInsert, mapLookup, hk, mapLookup_filter_ne h]

/-! ## Rate limiter (src/security/ratelimit.go) -/

/-- RateLimiter state: per-key admitted-call timestamps (ns), the call
limit per window, and the window duration (ns). -/
structure RateLimiter where
  requests : List (String × List Int)
  limit : Int
  window : Int
deriving DecidableEq

/-- NewRateLimiter from ratelimit.go. -/
def NewRateLimiter (limit window : Int) : RateLimiter :=
  { requests := [], limit := limit, window := window }

/-- Allow from ratelimit.go: returns the admission decision
and the updated limiter state. `t.After(windowStart)` is the strict
comparison `windowStart < t`. -/
def RateLimiter.Allow (rl : RateLimiter) (key : String) (now : Int) :
    Bool × RateLimiter :=
  let windowStart := now - rl.window
  match mapLookup key rl.requests with
  | none =>
      -- First request for this key
      (true, { rl with requests := mapInsert key [now] rl.requests })
  | some requests =>
      -- Filter out requests outside the window
      let validRequests := requests.filter (fun t => windowStart < t)
      -- Check if we're over the limit
      if rl.limit ≤ (validRequests.length : Int) then
        (false, rl)
      else
        (true,
          { rl with
            requests := mapInsert key (validRequests ++ [now]) rl.requests })

/-- Reset from ratelimit.go. -/
def RateLimiter.Reset (rl : RateLimiter) : RateLimiter :=
  { rl with requests := [] }

/-- Running a sequence of `Allow` calls, each a (key, time) pair. -/
def RunCalls (rl : RateLimiter) : List (String × Int) → RateLimiter
  | [] => rl
  | c :: cs => RunCalls (rl.Allow c.1 c.2).2 cs

/-- C9: a first call for a fresh key is admitted and recorded without the
limit being consulted (the conclusion holds for every limit, including 0). -/
theorem allow_first_call_admits (rl : RateLimiter) (key : String) (now : Int)
    (h : mapLookup key rl.requests = none) :
    (rl.Allow key now).1 = true ∧
    (rl.Allow key now).2.requests = mapInsert key [now] rl.requests := by
  simp [RateLimiter.Allow, h]

/-- C9 witness: with limit 0, the first call for a fresh key is admitted. -/
theorem allow_first_call_admits_witness :
    ((NewRateLimiter 0 10).Allow "k" 0).1 = true ∧
    ((NewRateLimiter 0 10).Allow "k" 0).2.requests =
      mapInsert "k" [0] (NewRateLimiter 0 10).requests :=
  allow_first_call_admits (NewRateLimiter 0 10) "k" 0 (by rfl)

/-- A limiter state used to exercise the reject branch of `Allow`:
the stored list for "k" holds a stale entry 0 and a fresh entry 95. -/
def rlC4 : RateLimiter := { requests := [("k", [0, 95])], limit := 1, window := 10 }

/-- C4 counterexample: at time 100 the call for "k" is rejected, the pruned
list is `[95]`, but the stored list is NOT replaced by the pruned list —
the reject branch returns before the map assignment. -/
theorem allow_reject_keeps_stale_counterexample :
    (rlC4.Allow "k" 100).1 = false ∧
    ([0, 95].filter (fun t => (100 : Int) - rlC4.window < t)) = [95] ∧
    mapLookup "k" ((rlC4.Allow "k" 100).2).requests ≠ some [95] := by decide

/-- C4 amended: when `Allow` rejects a call, the limiter state is left
completely unchanged (the pruned list is not saved back), so a rejected
call never grows the stored state. -/
theorem allow_reject_leaves_state_unchanged (rl : RateLimiter) (key : String)
    (now : Int) (h : (rl.Allow key now).1 = false) :
    (rl.Allow key now).2 = rl := by
  unfold RateLimiter.Allow at h ⊢
  cases hm : mapLookup key rl.requests with
  | none => simp [hm] at h
  | some requests =>
      simp only [hm] at h ⊢
      by_cases hc :
          rl.limit ≤ (((requests.filter
            (fun t => now - rl.window < t)).length : Nat) : Int)
      · simp [hc]
      · simp [hc] at h

/-- C4 amended witness: the concrete rejected call leaves `rlC4` unchanged. -/
theorem allow_reject_leaves_state_unchanged_witness :
    (rlC4.Allow "k" 100).1 = false ∧ (rlC4.Allow "k" 100).2 = rlC4 :=
  ⟨by decide, allow_reject_leaves_state_unchanged rlC4 "k" 100 (by decide)⟩

/-- Observer: run a sequence of `Allow` calls, recording each decision. -/
def AllowResults (rl : RateLimiter) : List (String × Int) → List Bool
  | [] => []
  | c :: cs => (rl.Allow c.1 c.2).1 :: AllowResults (rl.Allow c.1 c.2).2 cs

/-- C5: with limit 3 and a one-second (1e9 ns) window, four back-to-back
calls (all inside the window) yield true, true, true, false, and a further
call after the window has fully elapsed past the admitted calls yields
true again. -/
theorem rateLimiter_boundary (t1 t2 t3 t4 t5 : Int)
    (h12 : t1 ≤ t2) (h23 : t2 ≤ t3) (h34 : t3 ≤ t4)
    (hin : t4 < t1 + 1000000000) (hout : t3 + 1000000000 ≤ t5) :
    AllowResults (NewRateLimiter 3 1000000000)
        [("k", t1), ("k", t2), ("k", t3), ("k", t4), ("k", t5)] =
      [true, true, true, false, true] := by
  have f21 : t2 - 1000000000 < t1 := by omega
  have f31 : t3 - 1000000000 < t1 := by omega
  have f32 : t3 - 1000000000 < t2 := by omega
  have f41 : t4 - 1000000000 < t1 := by omega
  have f42 : t4 - 1000000000 < t2 := by omega
  have f43 : t4 - 1000000000 < t3 := by omega
  have g51 : ¬(t5 - 1000000000 < t1) := by omega
  have g52 : ¬(t5 - 1000000000 < t2) := by omega
  have g53 : ¬(t5 - 1000000000 < t3) := by omega
  simp [AllowResults, RateLimiter.Allow, NewRateLimiter, mapLookup, mapInsert,
    f21, f31, f32, f41, f42, f43, g51, g52, g53]

/-- C5 witness at concrete times 0, 1, 2, 3 and 2000000000. -/
theorem rateLimiter_boundary_witness :
    AllowResults (NewRateLimiter 3 1000000000)
        [("k", 0), ("k", 1), ("k", 2), ("k", 3), ("k", 2000000000)] =
      [true, true, true, false, true] :=
  rateLimiter_boundary 0 1 2 3 2000000000 (by decide) (by decide) (by decide)
    (by decide) (by decide)

/-- Stored-state bound: every retained timestamp list is within the limit. -/
def BoundedState (rl : RateLimiter) : Prop :=
  ∀ k l, mapLookup k rl.requests = some l → (l.length : Int) ≤ rl.limit

theorem Allow_limit_eq (rl : RateLimiter) (key : String) (t : Int) :
    ((rl.Allow key t).2).limit = rl.limit := by
  unfold RateLimiter.Allow
  cases mapLookup key rl.requests with
  | none => rfl
  | some l =>
      dsimp only
      split <;> rfl

theorem Allow_preserves_bounded {rl : RateLimiter} (h1 : 1 ≤ rl.limit)
    (hb : BoundedState rl) (key : String) (t : Int) :
    BoundedState (rl.Allow key t).2 := by
  intro k l hl
  rw [Allow_limit_eq]
  unfold RateLimiter.Allow at hl
  cases hm : mapLookup key rl.requests with
  | none =>
      rw [hm] at hl
      dsimp only at hl
      by_cases hk : k = key
      · subst hk
        rw [mapLookup_insert_self] at hl
        cases hl
        simpa using h1
      · rw [mapLookup_insert_ne hk] at hl
        exact hb k l hl
  | some reqs =>
      rw [hm] at hl
      dsimp only at hl
      by_cases hc :
          rl.limit ≤ ((reqs.filter (fun x => t - rl.window < x)).length : Int)
      · rw [if_pos hc] at hl
        exact hb k l hl
      · rw [if_neg hc] at hl
        dsimp only at hl
        by_cases hk : k = key
        · subst hk
          rw [mapLookup_insert_self] at hl
          cases hl
          rw [List.length_append]
          simp only [List.length_singleton]
          push_cast
          omega
        · rw [mapLookup_insert_ne hk] at hl
          exact hb k l hl

theorem RunCalls_preserves (cs : List (String × Int)) :
    ∀ rl : RateLimiter, 1 ≤ rl.limit → BoundedState rl →
      BoundedState (RunCalls rl cs) ∧ (RunCalls rl cs).limit = rl.limit := by
  induction cs with
  | nil => exact fun rl _ hb => ⟨hb, rfl⟩
  | cons c cs ih =>
      intro rl h1 hb
      have hlim := Allow_limit_eq rl c.1 c.2
      have hstep := ih (rl.Allow c.1 c.2).2 (by rw [hlim]; exact h1)
        (Allow_preserves_bounded h1 hb c.1 c.2)
      exact ⟨hstep.1, hstep.2.trans hlim⟩

/-- C6: for a limiter built with a positive limit, after any sequence of
`Allow` calls the number of retained timestamps newer than `now - window`
is at most the limit for every key, and `Allow` for one key never touches
another key's stored entries (stale entries are pruned only lazily, on the
next access to that key). -/
theorem rateLimiter_window_invariant (limit window : Int) (hpos : 1 ≤ limit) :
    (∀ (cs : List (String × Int)) (k : String) (now : Int) (l : List Int),
        mapLookup k (RunCalls (NewRateLimiter limit window) cs).requests =
          some l →
        ((l.filter (fun t => now - window < t)).length : Int) ≤ limit) ∧
    (∀ (rl : RateLimiter) (key : String) (t : Int) (k' : String), k' ≠ key →
        mapLookup k' ((rl.Allow key t).2).requests =
          mapLookup k' rl.requests) := by
  constructor
  · intro cs k now l hl
    have hrun := RunCalls_preserves cs (NewRateLimiter limit window) hpos
      (fun k l h => by simp [NewRateLimiter, mapLookup] at h)
    have hb := hrun.1 k l hl
    rw [hrun.2] at hb
    have hfl : (l.filter (fun t => now - window < t)).length ≤ l.length :=
      List.length_filter_le _ _
    exact le_trans (by exact_mod_cast hfl) hb
  · intro rl key t k' hk
    unfold RateLimiter.Allow
    cases hm : mapLookup key rl.requests with
    | none =>
        dsimp only
        exact mapLookup_insert_ne hk _ _
    | some reqs =>
        dsimp only
        split
        · rfl
        · exact mapLookup_insert_ne hk _ _

/-- C6 witness: instantiates the invariant at limit 1, window 1, the call
sequence `[("k", 0)]`, key "k" and instant 0. -/
theorem rateLimiter_window_invariant_witness :
    ((([0] : List Int).filter (fun t => (0 : Int) - 1 < t)).length : Int) ≤ 1 :=
  (rateLimiter_window_invariant 1 1 (by decide)).1 [("k", 0)] "k" 0 [0]
    (by decide)

/-! ## PathGuard (src/unnamed/part_004, SanitizeFilePath)

Path strings are manipulated through structurally-recursive char-list
helpers translating the Go `path/filepath` routines for Unix paths. -/

/-- Leading-sequence test on char lists: `charsLeads pre s` is true when
`pre` is an initial run of `s` (Go `strings.HasPrefix s pre`). -/
def charsLeads : List Char → List Char → Bool
  | [], _ => true
  | _ :: _, [] => false
  | a :: as, b :: bs => a == b && charsLeads as bs

/-- Substring occurrence on char lists (Go `strings.Contains`). -/
def containsSub : List Char → List Char → Bool
  | [], sub => sub.isEmpty
  | s@(_ :: rest), sub => charsLeads sub s || containsSub rest sub

/-- Go `strings.Contains s sub`. -/
def stringsContains (s sub : String) : Bool := containsSub s.data sub.data

/-- Go `strings.HasPrefix s pre`. -/
def stringsHasPrefix (s pre : String) : Bool := charsLeads pre.data s.data

/-- Split a char list on a separator character (Go `strings.Split`). -/
def splitOnChar (c : Char) : List Char → List (List Char)
  | [] => [[]]
  | x :: xs =>
      match splitOnChar c xs with
      | [] => [[]]
      | y :: ys => if x == c then [] :: y :: ys else (x :: y) :: ys

/-- Whether a Unix path is rooted (starts with the separator). -/
def isRooted (p : String) : Bool :=
  match p.data with
  | c :: _ => c == '/'
  | [] => false

/-- One step of the element loop of Go `path.Clean`, output kept reversed:
empty and "." segments are dropped; ".." pops the previous segment, except
at the root (dropped) or at the front of a relative path (kept). -/
def cleanStep (rooted : Bool) (acc : List String) (seg : String) : List String :=
  if seg = "" || seg = "." then acc
  else if seg = ".." then
    match acc with
    | [] => if rooted then [] else [".."]
    | a :: rest => if a = ".." then seg :: acc else rest
  else seg :: acc

/-- Join segments with the separator. -/
def joinSegs : List String → String
  | [] => ""
  | [s] => s
  | s :: rest => s ++ "/" ++ joinSegs rest

/-- Go `filepath.Clean` for Unix paths. -/
def filepathClean (p : String) : String :=
  if p = "" then "."
  else
    let rooted := isRooted p
    let segs := (splitOnChar '/' p.data).map (fun l => String.mk l)
    let out := (segs.foldl (cleanStep rooted) []).reverse
    let body := joinSegs out
    if rooted then "/" ++ body
    else if body = "" then "." else body

/-- Go `filepath.Join` on two elements: empty elements are skipped, the
rest joined with the separator, and the result cleaned; all-empty input
yields the empty string. -/
def filepathJoin (a b : String) : String :=
  if a = "" && b = "" then ""
  else if a = "" then filepathClean b
  else if b = "" then filepathClean a
  else filepathClean (a ++ "/" ++ b)

/-- Go `filepath.Dir`: the portion up to and including the final separator,
cleaned; "." when the path holds no separator. -/
def filepathDir (p : String) : String :=
  filepathClean (String.mk ((p.data.reverse.dropWhile (fun c => c != '/')).reverse))

/-- Go `filepath.Abs` on Unix: an absolute path is cleaned; a relative one
is joined to the working directory. -/
def filepathAbs (cwd p : String) : String :=
  if isRooted p then filepathClean p else filepathJoin cwd p

/-- Result of `filepath.EvalSymlinks`: success with the resolved path, a
does-not-exist error, or any other error. Go pairs an error with the empty
string result. -/
inductive EvalResult where
  | ok (resolved : String)
  | errNotExist
  | errOther
deriving DecidableEq

/-- Ambient file-system behaviour the sanitizer consults: the working
directory used by `filepath.Abs` and the symlink-resolution outcome of
each path. -/
structure FileSystem where
  cwd : String
  evalSymlinks : String → EvalResult

/-- SanitizeFilePath from src/unnamed/part_004. The fallbacks mirror the Go
code: a failed resolution of the base falls back to the unresolved base; a
non-not-exist failure on the target's parent falls back to the unresolved
parent; a not-exist failure leaves the empty string that `EvalSymlinks`
returned beside the error and takes its `Dir`. The containment check is
the raw `strings.HasPrefix` of the cleaned resolved paths. -/
def SanitizeFilePath (fs : FileSystem) (baseDir filePath : String) :
    Except String String :=
  if filePath = "" then .error "file path cannot be empty"
  else if stringsContains filePath ".." then
    .error "file path contains forbidden path traversal pattern"
  else
    let resolvedBase :=
      match fs.evalSymlinks baseDir with
      | .ok s => s
      | _ => baseDir
    let absPath := filepathAbs fs.cwd (filepathJoin baseDir filePath)
    let res :=
      match fs.evalSymlinks (filepathDir absPath) with
      | .ok s => (s, false)
      | .errNotExist => ("", true)
      | .errOther => (filepathDir absPath, false)
    let resolvedPath := if res.2 then filepathDir res.1 else res.1
    let cleanBase := filepathClean resolvedBase
    let cleanPath := filepathClean resolvedPath
    if !(stringsHasPrefix cleanPath cleanBase) then
      .error ("file path is outside the base directory (base=" ++ cleanBase ++
        ", path=" ++ cleanPath ++ ")")
    else .ok absPath

/-- Specification-side comparison, following the spec's words rather than
the source: containment compared on full path segments. -/
def isSegmentDescendant (base p : String) : Bool :=
  ((splitOnChar '/' base.data).map (fun l => String.mk l)).isPrefixOf
    ((splitOnChar '/' p.data).map (fun l => String.mk l))

/-- File system for the C1 scenario: the base `/home/user` resolves to
itself, and `/home/user/link` is a symlink resolving to `/home/user2`. -/
def fsC1 : FileSystem :=
  { cwd := "/",
    evalSymlinks := fun p =>
      if p = "/home/user" then .ok "/home/user"
      else if p = "/home/user/link" then .ok "/home/user2"
      else .errOther }

/-- C1: the containment check is a raw string-prefix comparison, so a
resolved path under /home/user2 passes against base /home/user although it
is not a segment-wise descendant — SanitizeFilePath returns the path
instead of failing. -/
theorem sanitize_raw_string_comparison_bug :
    SanitizeFilePath fsC1 "/home/user" "link/f.txt" =
      .ok "/home/user/link/f.txt" ∧
    fsC1.evalSymlinks (filepathDir "/home/user/link/f.txt") =
      .ok "/home/user2" ∧
    stringsHasPrefix "/home/user2" "/home/user" = true ∧
    isSegmentDescendant "/home/user" "/home/user2" = false := by
  refine ⟨rfl, rfl, rfl, rfl⟩

/-- File system for the C2 scenario: the base `/home/user` resolves to
itself, and `/home/user/evil` is a symlink resolving to `/etc/secret`. -/
def fsC2 : FileSystem :=
  { cwd := "/",
    evalSymlinks := fun p =>
      if p = "/home/user" then .ok "/home/user"
      else if p = "/home/user/evil" then .ok "/etc/secret"
      else .errOther }

/-- C2: symlinks are resolved only on the parent directory of the target,
never on the final component, so a relative path whose final component is
a symlink pointing outside the base is returned as usable instead of being
rejected. -/
theorem sanitize_symlink_leaf_bug :
    SanitizeFilePath fsC2 "/home/user" "evil" = .ok "/home/user/evil" ∧
    fsC2.evalSymlinks "/home/user/evil" = .ok "/etc/secret" ∧
    isSegmentDescendant "/home/user" "/etc/secret" = false := by
  refine ⟨rfl, rfl, rfl⟩

/-- C10: any relative path containing the two-character substring ".."
anywhere in the raw input is rejected with the path-traversal error, for
every file system and base directory. -/
theorem sanitize_rejects_any_dotdot (fs : FileSystem) (baseDir filePath : String)
    (h : stringsContains filePath ".." = true) :
    SanitizeFilePath fs baseDir filePath =
      .error "file path contains forbidden path traversal pattern" := by
  have hne : filePath ≠ "" := by
    intro he
    rw [he] at h
    simp [stringsContains, containsSub] at h
  unfold SanitizeFilePath
  rw [if_neg hne, if_pos h]

/-- C10 witness: the single-component filename "a..b.txt", inside the base
directory, is rejected even though its ".." is not a parent-directory
segment. -/
theorem sanitize_rejects_any_dotdot_witness :
    SanitizeFilePath fsC1 "/home/user" "a..b.txt" =
      .error "file path contains forbidden path traversal pattern" :=
  sanitize_rejects_any_dotdot fsC1 "/home/user" "a..b.txt" (by decide)

/-! ## Vault (src/security/token.go; src/unnamed/part_001 variant) -/

theorem toNat_ofNat_byte {n : Nat} (h : n < 256) : (Char.ofNat n).toNat = n := by
  have hv : n.isValidChar := Or.inl (by omega)
  rw [Char.ofNat, dif_pos hv]
  rfl

theorem map_toNat_map_ofNat (b : List Nat) (hb : ∀ x ∈ b, x < 256) :
    (b.map Char.ofNat).map Char.toNat = b := by
  induction b with
  | nil => rfl
  | cons x xs ih =>
      simp only [List.map_cons, List.cons.injEq]
      exact ⟨toNat_ofNat_byte (hb x (by simp)),
        ih (fun y hy => hb y (by simp [hy]))⟩

/-- Bytes of a Go string; for ASCII strings the code points are the
UTF-8 bytes. -/
def strBytes (s : String) : List Nat := s.data.map Char.toNat

/-- Go `string(bytes)` for ASCII byte lists. -/
def bytesStr (b : List Nat) : String := String.mk (b.map Char.ofNat)

/-- AEAD scheme as the vault consumes it (the Go crypto/cipher GCM
contract): `seal key nonce plain` yields ciphertext-plus-tag, `opens` is
authenticated decryption and inverts `seal` under the same key and nonce,
and sealing byte-valued input yields byte-valued output. -/
structure AEAD where
  nonceSize : Nat
  sealFn : List Nat → List Nat → List Nat → List Nat
  openFn : List Nat → List Nat → List Nat → Option (List Nat)
  open_seal : ∀ k n p, openFn k n (sealFn k n p) = some p
  seal_bytes : ∀ k n p, (∀ b ∈ p, b < 256) → ∀ b ∈ sealFn k n p, b < 256

/-- Base64 codec contract (encoding/base64 StdEncoding): decoding inverts
encoding on byte-valued lists. -/
structure Base64 where
  enc : List Nat → String
  dec : String → Option (List Nat)
  dec_enc : ∀ b, (∀ x ∈ b, x < 256) → dec (enc b) = some b

/-- One file write performed by the vault: target path and permission
bits. -/
structure DiskWrite where
  path : String
  mode : Nat
deriving DecidableEq

/-- Owner-only permission bits: no group or other bits set. -/
def ownerOnly (mode : Nat) : Bool := mode % 64 == 0

/-- Persistent state a TokenStorage operates on: the home directory, the
key-file contents, and the parsed token-file mapping. -/
structure TokenStorageState where
  homeDir : String
  keyData : List Nat
  tokens : List (String × String)

/-- StoreToken from src/security/token.go, as a state transition paired
with the disk write it performs: seal the token under a fresh nonce,
prepend the nonce, base64-encode, merge into the token map, and write the
map to `~/.plannet_tokens` with mode 0600. -/
def StoreToken (A : AEAD) (B : Base64) (st : TokenStorageState)
    (key token : String) (nonce : List Nat) :
    TokenStorageState × DiskWrite :=
  let ciphertext := nonce ++ A.sealFn st.keyData nonce (strBytes token)
  let encodedToken := B.enc ciphertext
  ({ st with tokens := mapInsert key encodedToken st.tokens },
   { path := st.homeDir ++ "/.plannet_tokens", mode := 0o600 })

/-- GetToken from src/security/token.go: look the name up, base64-decode,
reject blobs shorter than the nonce, split off the nonce, and
authenticated-decrypt. -/
def GetToken (A : AEAD) (B : Base64) (st : TokenStorageState)
    (key : String) : Except String String :=
  match mapLookup key st.tokens with
  | none => .error ("token not found for key: " ++ key)
  | some encodedToken =>
      match B.dec encodedToken with
      | none => .error "error decoding token"
      | some ciphertext =>
          if ciphertext.length < A.nonceSize then .error "ciphertext too short"
          else
            match A.openFn st.keyData (ciphertext.take A.nonceSize)
                (ciphertext.drop A.nonceSize) with
            | none => .error "error decrypting token"
            | some plaintext => .ok (bytesStr plaintext)

/-- C3: for every logical name and printable-ASCII token of length 1 to
4096, GetToken after a successful StoreToken under the same unchanged key
file returns exactly the stored token. -/
theorem storeToken_getToken_roundtrip (A : AEAD) (B : Base64)
    (st : TokenStorageState) (name token : String) (nonce : List Nat)
    (hn : nonce.length = A.nonceSize)
    (hnb : ∀ b ∈ nonce, b < 256)
    (hascii : ∀ c ∈ token.data, 32 ≤ c.toNat ∧ c.toNat ≤ 126)
    (_hlen1 : 1 ≤ token.length) (_hlen2 : token.length ≤ 4096) :
    GetToken A B (StoreToken A B st name token nonce).1 name = .ok token := by
  have hpb : ∀ b ∈ strBytes token, b < 256 := by
    intro b hb
    simp only [strBytes, List.mem_map] at hb
    obtain ⟨c, hc, rfl⟩ := hb
    exact lt_of_le_of_lt (hascii c hc).2 (by norm_num)
  have hcb : ∀ b ∈ nonce ++ A.sealFn st.keyData nonce (strBytes token),
      b < 256 := by
    intro b hb
    rcases List.mem_append.mp hb with h | h
    · exact hnb b h
    · exact A.seal_bytes _ _ _ hpb b h
  have hlen :
      ¬((nonce ++ A.sealFn st.keyData nonce (strBytes token)).length <
        A.nonceSize) := by
    rw [List.length_append, hn]
    omega
  unfold StoreToken GetToken
  simp only [mapLookup_insert_self, B.dec_enc _ hcb, if_neg hlen]
  rw [← hn, List.take_left, List.drop_left, A.open_seal]
  have hb : bytesStr (strBytes token) = token := by
    simp [bytesStr, strBytes, List.map_map, Function.comp_def]
  show Except.ok (bytesStr (strBytes token)) = Except.ok token
  rw [hb]

/-- Identity AEAD instance, used to evaluate the contract at a concrete
input. -/
def idAEAD : AEAD where
  nonceSize := 12
  sealFn := fun _ _ p => p
  openFn := fun _ _ c => some c
  open_seal := fun _ _ _ => rfl
  seal_bytes := fun _ _ _ h => h

/-- Byte-per-character codec instance of the base64 contract. -/
def charCodec : Base64 where
  enc := fun b => String.mk (b.map Char.ofNat)
  dec := fun s => some (s.data.map Char.toNat)
  dec_enc := fun b hb => congrArg some (map_toNat_map_ofNat b hb)

/-- Twelve-byte nonce used in concrete instantiations. -/
def nonce12 : List Nat := [0, 1, 2, 3, 4, 5, 6, 7, 8, 9, 10, 11]

/-- Fresh vault state used in concrete instantiations. -/
def stC3 : TokenStorageState :=
  { homeDir := "/home/user", keyData := [], tokens := [] }

/-- C3 witness: round trip of "tok-abc123" under the name "jira". -/
theorem storeToken_getToken_roundtrip_witness :
    GetToken idAEAD charCodec
        (StoreToken idAEAD charCodec stC3 "jira" "tok-abc123" nonce12).1
        "jira" = .ok "tok-abc123" :=
  storeToken_getToken_roundtrip idAEAD charCodec stC3 "jira" "tok-abc123"
    nonce12 (by decide) (by decide) (by decide) (by decide) (by decide)

/-- StoreToken from the src/unnamed/part_001 variant: the ciphertext is
embedded in the JSON config at `~/.plannetrc` under a field chosen by the
logical key ("llm" or "jira"; other keys are rejected), and the config is
written back with mode 0644. -/
def StoreTokenRC (A : AEAD) (B : Base64) (homeDir : String)
    (keyData : List Nat) (config : List (String × String))
    (key token : String) (nonce : List Nat) :
    Except String (List (String × String) × DiskWrite) :=
  let encodedToken := B.enc (nonce ++ A.sealFn keyData nonce (strBytes token))
  let write : DiskWrite := { path := homeDir ++ "/.plannetrc", mode := 0o644 }
  match key with
  | "llm" => .ok (mapInsert "llm_token" encodedToken config, write)
  | "jira" => .ok (mapInsert "jira_token" encodedToken config, write)
  | _ => .error ("unknown token key: " ++ key)

/-- C8: the token.go vault writes its ciphertext record file with
owner-only mode 0600, but the part_001 variant writes its ciphertext
record (the config file) with mode 0644, which does not deny access to
non-owners. -/
theorem vault_record_write_mode_bug :
    (StoreToken idAEAD charCodec stC3 "jira" "tok-abc123" nonce12).2 =
      { path := "/home/user/.plannet_tokens", mode := 0o600 } ∧
    ownerOnly 0o600 = true ∧
    ((StoreTokenRC idAEAD charCodec "/home/user" [] [] "jira" "tok-abc123"
        nonce12).toOption.map Prod.snd) =
      some { path := "/home/user/.plannetrc", mode := 0o644 } ∧
    ownerOnly 0o644 = false :=
  ⟨rfl, rfl, rfl, rfl⟩

/-! ## HTTP rate-limited transport (src/security/ratelimit.go) -/

/-- rateLimitedTransport from ratelimit.go: the base round tripper (absent
when the original client had none), the shared limiter, and the key. -/
structure RateLimitedTransport (Req Resp : Type) where
  base : Option (Req → Resp)
  limiter : RateLimiter
  key : String

/-- An http.Client as the wrapper consumes it. -/
structure HTTPClient (Req Resp Redir Jar : Type) where
  transport : Option (Req → Resp)
  timeout : Int
  checkRedirect : Redir
  jar : Jar

/-- Result of WrapHTTPClient: the same client data with the transport
replaced by the rate-limited transport. -/
structure WrappedClient (Req Resp Redir Jar : Type) where
  transport : RateLimitedTransport Req Resp
  timeout : Int
  checkRedirect : Redir
  jar : Jar

/-- HTTPRateLimiter from ratelimit.go. -/
structure HTTPRateLimiter where
  limiter : RateLimiter

/-- WrapHTTPClient from ratelimit.go. -/
def HTTPRateLimiter.WrapHTTPClient {Req Resp Redir Jar : Type}
    (rl : HTTPRateLimiter) (client : HTTPClient Req Resp Redir Jar)
    (key : String) : WrappedClient Req Resp Redir Jar :=
  { transport := { base := client.transport, limiter := rl.limiter, key := key },
    timeout := client.timeout,
    checkRedirect := client.checkRedirect,
    jar := client.jar }

/-- RoundTrip from ratelimit.go: consult the limiter first; on denial fail
with the rate-limit error; on admission delegate to the base transport, or
to the default transport when none is set. Returns the response-or-error
and the updated transport state at evaluation instant `now`. -/
def RateLimitedTransport.RoundTrip {Req Resp : Type}
    (t : RateLimitedTransport Req Resp) (defaultTransport : Req → Resp)
    (now : Int) (req : Req) :
    Except String Resp × RateLimitedTransport Req Resp :=
  let allowed := t.limiter.Allow t.key now
  let t' := { t with limiter := allowed.2 }
  if !allowed.1 then
    (.error ("rate limit exceeded for " ++ t.key), t')
  else
    match t.base with
    | none => (.ok (defaultTransport req), t')
    | some b => (.ok (b req), t')

/-- C7: WrapHTTPClient keeps the original client's timeout, redirect
policy and cookie jar and installs a transport wrapping the original one;
a denied RoundTrip fails with the rate-limit error naming the key, with a
result independent of the wrapped and default transports (no delegation);
an admitted RoundTrip delegates the request unchanged to the original
transport, or to the default transport when the client had none. -/
theorem wrapHTTPClient_roundTrip_contract {Req Resp Redir Jar : Type}
    (rl : HTTPRateLimiter) (client : HTTPClient Req Resp Redir Jar)
    (key : String) (defaultTransport : Req → Resp) (now : Int) (req : Req) :
    ((rl.WrapHTTPClient client key).timeout = client.timeout ∧
     (rl.WrapHTTPClient client key).checkRedirect = client.checkRedirect ∧
     (rl.WrapHTTPClient client key).jar = client.jar ∧
     (rl.WrapHTTPClient client key).transport.base = client.transport ∧
     (rl.WrapHTTPClient client key).transport.key = key) ∧
    ((rl.limiter.Allow key now).1 = false →
      ∀ (base' : Option (Req → Resp)) (d' : Req → Resp),
        ({ base := base', limiter := rl.limiter, key := key } :
            RateLimitedTransport Req Resp).RoundTrip d' now req =
          (.error ("rate limit exceeded for " ++ key),
           { base := base', limiter := (rl.limiter.Allow key now).2,
             key := key })) ∧
    ((rl.limiter.Allow key now).1 = true →
      ∀ b, client.transport = some b →
        ((rl.WrapHTTPClient client key).transport.RoundTrip defaultTransport
            now req).1 = .ok (b req)) ∧
    ((rl.limiter.Allow key now).1 = true → client.transport = none →
      ((rl.WrapHTTPClient client key).transport.RoundTrip defaultTransport
          now req).1 = .ok (defaultTransport req)) := by
  refine ⟨⟨rfl, rfl, rfl, rfl, rfl⟩, ?_, ?_, ?_⟩
  · intro hd base' d'
    simp [RateLimitedTransport.RoundTrip, hd]
  · intro ha b hb
    simp [RateLimitedTransport.RoundTrip, HTTPRateLimiter.WrapHTTPClient,
      ha, hb]
  · intro ha hb
    simp [RateLimitedTransport.RoundTrip, HTTPRateLimiter.WrapHTTPClient,
      ha, hb]

/-- Limiter state that denies the next call for "k". -/
def limC7 : RateLimiter :=
  { requests := [("k", [0])], limit := 1, window := 10 }

/-- Client with no transport configured, used at the concrete input. -/
def clientC7 : HTTPClient Nat Nat Unit Unit :=
  { transport := none, timeout := 7, checkRedirect := (), jar := () }

/-- C7 witness: the wrapper keeps the timeout, and a denied round trip at
the concrete input yields the rate-limit error naming "k". -/
theorem wrapHTTPClient_roundTrip_contract_witness :
    (({ limiter := limC7 } : HTTPRateLimiter).WrapHTTPClient clientC7
        "k").timeout = 7 ∧
    (({ base := none, limiter := limC7, key := "k" } :
        RateLimitedTransport Nat Nat).RoundTrip id 5 0).1 =
      .error "rate limit exceeded for k" := by
  have h := wrapHTTPClient_roundTrip_contract { limiter := limC7 } clientC7
    "k" id 5 0
  exact ⟨h.1.1, by rw [h.2.1 (by decide) none id]; rfl⟩

end Plannet
